import Mathlib

/-!
Shallow embedding of the Tab / Tabs (tab collection) core of
electron-browser-shell, translated from
src/packages/electron-chrome-extensions/src/browser/index.ts
(the Tab and Tabs classes, lines 209-354).

Modelling conventions:
- A JavaScript object is a Lean structure value; the mutation of a tab held
  inside the collection list is an update of the list entry with that id
  (the source never stores duplicate ids: ids come from the host and are
  globally unique, mirrored here by the nextId counter).
- The window collaborator is reduced to the parts the core touches: a live
  flag (this.window being set and usable), its reported size, a destroy
  counter (how many times window.destroy fired), and per-tab counts of
  registered resize listeners (window.on may register the same handler
  several times; window.off removes at most one registration).
- Throwing JavaScript code is an Except value; accessing a member of an
  undefined reference is JsError.typeError. Except.error carries no state,
  matching the source where every throw happens before any mutation of the
  object that threw.
- The EventEmitter notifications tab-created / tab-selected / tab-destroyed
  are recorded in an event log; each entry snapshots the collection at the
  moment of emission, which is what a synchronous listener observes.
- The webContents teardown details inside Tab.destroy (devtools close,
  webContents.destroy) have no observable effect on any claim and are left
  out; the destroyed flag, view detachment and window-reference clearing are
  modelled.
-/

namespace Shell

/-- A bounds rectangle as passed to view.setBounds. -/
structure Rect where
  x : Int
  y : Int
  width : Int
  height : Int
deriving DecidableEq, Repr

/-- Errors surfaced by the core: Tabs.remove throws on a missing id, and
member access on an undefined reference raises a TypeError. -/
inductive JsError where
  | notFound (tabId : Nat)
  | typeError
deriving DecidableEq, Repr

/-- One Tab object: its id, lifecycle flags, the state of its view surface
and its registrations on the parent window. -/
structure Tab where
  id : Nat
  destroyed : Bool
  visible : Bool
  /-- number of times the bound invalidateLayout handler of this tab is
  currently registered on the resize event of the window (window.on adds one
  registration each call). -/
  resizeSubs : Nat
  bounds : Option Rect
  borderRadius : Option Nat
  /-- view is attached as a child view of the window content view -/
  attached : Bool
  /-- this.window is set (not undefined) -/
  hasWindow : Bool
deriving DecidableEq, Repr

/-- const toolbarHeight = 62 -/
def toolbarHeight : Int := 62

/-- new Tab(parentWindow) with a live parent window: creates the view,
captures the id, attaches the view to the window content view. -/
def Tab.mkTab (tabId : Nat) : Tab :=
  { id := tabId, destroyed := false, visible := false, resizeSubs := 0,
    bounds := none, borderRadius := none, attached := true, hasWindow := true }

/-- Tab.invalidateLayout: reads the window size and sets the view bounds and
border radius. Accessing this.window when it is undefined throws. -/
def Tab.invalidateLayout (w h : Int) (t : Tab) : Except JsError Tab :=
  if t.hasWindow then
    let padding : Int := 4
    .ok { t with
      bounds := some { x := padding, y := toolbarHeight + padding,
                       width := w - padding * 2,
                       height := h - toolbarHeight - padding * 2 },
      borderRadius := some 8 }
  else .error .typeError

/-- Tab.startResizeListener: this.window.on adds one more registration of the
bound handler. -/
def Tab.startResizeListener (t : Tab) : Except JsError Tab :=
  if t.hasWindow then .ok { t with resizeSubs := t.resizeSubs + 1 }
  else .error .typeError

/-- Tab.stopResizeListener: this.window.off removes at most one registration
of the bound handler (a no-op when none is registered). -/
def Tab.stopResizeListener (t : Tab) : Except JsError Tab :=
  if t.hasWindow then .ok { t with resizeSubs := t.resizeSubs - 1 }
  else .error .typeError

/-- Tab.show: invalidateLayout, startResizeListener, view.setVisible(true). -/
def Tab.show (w h : Int) (t : Tab) : Except JsError Tab :=
  match t.invalidateLayout w h with
  | .error e => .error e
  | .ok t1 =>
    match t1.startResizeListener with
    | .error e => .error e
    | .ok t2 => .ok { t2 with visible := true }

/-- Tab.hide: stopResizeListener, view.setVisible(false). -/
def Tab.hide (t : Tab) : Except JsError Tab :=
  match t.stopResizeListener with
  | .error e => .error e
  | .ok t1 => .ok { t1 with visible := false }

/-- Tab.destroy: guarded by the destroyed flag; hides, detaches the view from
the window content view, clears the window reference and releases the view. -/
def Tab.destroy (t : Tab) : Except JsError Tab :=
  if t.destroyed then .ok t
  else
    let t1 := { t with destroyed := true }
    match t1.hide with
    | .error e => .error e
    | .ok t2 => .ok { t2 with attached := false, hasWindow := false }

/-- The window invokes every currently registered resize handler once; each
registration of the bound handler reruns invalidateLayout. -/
def Tab.applyLayoutN (w h : Int) : Nat → Tab → Except JsError Tab
  | 0, t => .ok t
  | n + 1, t =>
    match t.invalidateLayout w h with
    | .error e => .error e
    | .ok t1 => Tab.applyLayoutN w h n t1

/-- A single window resize event delivered to this tab: runs the layout
recomputation once per registration and reports how many times it ran. -/
def Tab.onWindowResize (w h : Int) (t : Tab) : Except JsError (Tab × Nat) :=
  match Tab.applyLayoutN w h t.resizeSubs t with
  | .error e => .error e
  | .ok t1 => .ok (t1, t.resizeSubs)

/-- Kinds of notifications the collection emits. -/
inductive EventKind where
  | tabCreated
  | tabSelected
  | tabDestroyed
deriving DecidableEq, Repr

/-- ids of the tabs of a list, in order. -/
def tabIds (l : List Tab) : List Nat := l.map Tab.id

/-- ids of the currently visible tabs of a list, in order. -/
def visIds : List Tab → List Nat
  | [] => []
  | t :: ts => if t.visible then t.id :: visIds ts else visIds ts

/-- What a synchronous listener observes at the moment an event is emitted:
the event kind, the id and destroyed flag of the payload tab, and the
tab ids, visible tab ids and selection at that instant. -/
structure Obs where
  kind : EventKind
  payloadId : Nat
  payloadDestroyed : Bool
  tabIds : List Nat
  visibleIds : List Nat
  selectedId : Option Nat
deriving DecidableEq, Repr

/-- The Tabs collection object plus the observable window facts it owns. -/
structure Tabs where
  tabList : List Tab
  /-- id of this.selected (null/undefined is none); ids are unique, so the
  object reference of the source is faithfully represented by the id. -/
  selected : Option Nat
  /-- this.window is set and usable -/
  windowLive : Bool
  /-- how many times this.window.destroy() has fired -/
  windowDestroyCount : Nat
  winW : Int
  winH : Int
  /-- next host-assigned webContents id -/
  nextId : Nat
  /-- log of emitted notifications, oldest first -/
  events : List Obs
deriving DecidableEq, Repr

/-- Snapshot taken while emitting an event with the given payload tab. -/
def snapshot (k : EventKind) (payload : Tab) (s : Tabs) : Obs :=
  { kind := k, payloadId := payload.id, payloadDestroyed := payload.destroyed,
    tabIds := tabIds s.tabList, visibleIds := visIds s.tabList,
    selectedId := s.selected }

/-- tabList.find(tab => tab.id === tabId): first tab with the given id. -/
def getTab : List Tab → Nat → Option Tab
  | [], _ => none
  | t :: ts, tabId => if t.id = tabId then some t else getTab ts tabId

/-- In-place mutation of the (first) tab with the given id, returning the
updated list and the updated tab; the mutating call may throw. -/
def updateTabGet : List Tab → Nat → (Tab → Except JsError Tab) →
    Except JsError (List Tab × Option Tab)
  | [], _, _ => .ok ([], none)
  | t :: ts, tabId, f =>
    if t.id = tabId then
      match f t with
      | .error e => .error e
      | .ok t1 => .ok (t1 :: ts, some t1)
    else
      match updateTabGet ts tabId f with
      | .error e => .error e
      | .ok (ts1, r) => .ok (t :: ts1, r)

/-- tabList.findIndex(tab => tab.id === tabId). -/
def findTabIndex : List Tab → Nat → Option Nat
  | [], _ => none
  | t :: ts, tabId =>
    if t.id = tabId then some 0
    else (findTabIndex ts tabId).map (· + 1)

/-- tabList[i] for a non-negative index. -/
def idxGet : List Tab → Nat → Option Tab
  | [], _ => none
  | t :: _, 0 => some t
  | _ :: ts, n + 1 => idxGet ts n

/-- tabList.splice(i, 1): the list without its element at index i. -/
def dropIdx : List Tab → Nat → List Tab
  | [], _ => []
  | _ :: ts, 0 => ts
  | t :: ts, n + 1 => t :: dropIdx ts n

/-- Tabs.get(tabId). -/
def Tabs.get (s : Tabs) (tabId : Nat) : Option Tab :=
  getTab s.tabList tabId

/-- Tabs.select(tabId): no-op when the id does not resolve; otherwise hide
the selected tab, show the target, update the selection, then emit
tab-selected with the (now shown) target as payload. -/
def Tabs.select (s : Tabs) (tabId : Nat) : Except JsError Tabs :=
  match s.get tabId with
  | none => .ok s
  | some _ =>
    let hidden : Except JsError (List Tab) :=
      match s.selected with
      | some sid =>
        match updateTabGet s.tabList sid Tab.hide with
        | .error e => .error e
        | .ok (l1, _) => .ok l1
      | none => .ok s.tabList
    match hidden with
    | .error e => .error e
    | .ok l1 =>
      match updateTabGet l1 tabId (Tab.show s.winW s.winH) with
      | .error e => .error e
      | .ok (l2, shown) =>
        let s1 := { s with tabList := l2, selected := some tabId }
        match shown with
        | some tb =>
          .ok { s1 with events := s1.events ++ [snapshot .tabSelected tb s1] }
        | none => .ok s1
          -- unreachable: the target was found by get and hiding keeps ids

/-- Tabs.create(): construct a Tab on the owned window (throws when the
window is gone), push it, set it selected when nothing was, show it, emit
tab-created, then select it; returns the new tab. -/
def Tabs.create (s : Tabs) : Except JsError (Tabs × Tab) :=
  if s.windowLive then
    let tab := Tab.mkTab s.nextId
    let s1 := { s with tabList := s.tabList ++ [tab], nextId := s.nextId + 1 }
    let s2 := if s1.selected = none then { s1 with selected := some tab.id } else s1
    match updateTabGet s2.tabList tab.id (Tab.show s2.winW s2.winH) with
    | .error e => .error e
    | .ok (l1, shownTab) =>
      let s3 := { s2 with tabList := l1 }
      let s4 :=
        match shownTab with
        | some tb => { s3 with events := s3.events ++ [snapshot .tabCreated tb s3] }
        | none => s3
      match s4.select tab.id with
      | .error e => .error e
      | .ok s5 =>
        .ok (s5, (getTab s5.tabList tab.id).getD tab)
  else .error .typeError

/-- Destroy every owned tab in order; a tab already destroyed returns early
without throwing. -/
def destroyAllTabs : List Tab → Except JsError (List Tab)
  | [] => .ok []
  | t :: ts =>
    match t.destroy with
    | .error e => .error e
    | .ok t1 =>
      match destroyAllTabs ts with
      | .error e => .error e
      | .ok ts1 => .ok (t1 :: ts1)

/-- Tabs.destroy(): destroy every tab, clear the list and the selection, then
destroy and release the owned window when it is still held. -/
def Tabs.destroy (s : Tabs) : Except JsError Tabs :=
  match destroyAllTabs s.tabList with
  | .error e => .error e
  | .ok _ =>
    let s1 := { s with tabList := [], selected := none }
    if s1.windowLive then
      .ok { s1 with windowLive := false,
                    windowDestroyCount := s1.windowDestroyCount + 1 }
    else .ok s1

/-- const nextTab = this.tabList[tabIndex] || this.tabList[tabIndex - 1]
(tabList[-1] is undefined in the source, hence the index-zero guard). -/
def jsNextTab (l : List Tab) (tabIndex : Nat) : Option Tab :=
  match idxGet l tabIndex with
  | some nt => some nt
  | none => if tabIndex = 0 then none else idxGet l (tabIndex - 1)

/-- Tabs.remove(tabId): throw notFound when absent; splice the tab out,
destroy it, reselect when it was the selected one (the tab now at the old
index, else the one before it), emit tab-destroyed, and self-destruct when
the list became empty. -/
def Tabs.remove (s : Tabs) (tabId : Nat) : Except JsError Tabs :=
  match findTabIndex s.tabList tabId with
  | none => .error (.notFound tabId)
  | some tabIndex =>
    let tab := (idxGet s.tabList tabIndex).getD (Tab.mkTab tabId)
    let s1 := { s with tabList := dropIdx s.tabList tabIndex }
    match tab.destroy with
    | .error e => .error e
    | .ok tabD =>
      let afterSel : Except JsError Tabs :=
        if s1.selected = some tabD.id then
          let s2 := { s1 with selected := none }
          match jsNextTab s2.tabList tabIndex with
          | some nt => s2.select nt.id
          | none => .ok s2
        else .ok s1
      match afterSel with
      | .error e => .error e
      | .ok s3 =>
        let s4 := { s3 with events := s3.events ++ [snapshot .tabDestroyed tabD s3] }
        if s4.tabList.length = 0 then s4.destroy else .ok s4

/-- new Tabs(browserWindow) for a live window of the given content size. -/
def Tabs.init (w h : Int) : Tabs :=
  { tabList := [], selected := none, windowLive := true,
    windowDestroyCount := 0, winW := w, winH := h, nextId := 1, events := [] }

/-- The externally issued commands against one collection. -/
inductive Op where
  | create
  | select (tabId : Nat)
  | remove (tabId : Nat)
  | destroyAll
deriving DecidableEq, Repr

/-- Apply one command. -/
def Tabs.applyOp (s : Tabs) : Op → Except JsError Tabs
  | .create =>
    match s.create with
    | .error e => .error e
    | .ok (s1, _) => .ok s1
  | .select tabId => s.select tabId
  | .remove tabId => s.remove tabId
  | .destroyAll => s.destroy

/-- Run one command; a command that throws has mutated nothing (every throw
in the source happens before any state mutation), so the state is kept. -/
def Tabs.runOp (s : Tabs) (op : Op) : Tabs :=
  match s.applyOp op with
  | .ok s1 => s1
  | .error _ => s

/-- Run a command sequence. -/
def Tabs.run (s : Tabs) (ops : List Op) : Tabs :=
  ops.foldl Tabs.runOp s

/-- number of occurrences of x. -/
def natCount : List Nat → Nat → Nat
  | [], _ => 0
  | y :: ys, x => (if y = x then 1 else 0) + natCount ys x

/-- The selection is consistent with the id multiset: no selection only for
an empty sequence, and a selection that matches exactly one tab id. -/
abbrev goodSel (selectedId : Option Nat) (ids : List Nat) : Prop :=
  match selectedId with
  | none => ids = []
  | some sid => natCount ids sid = 1

/-- A tab owned by a live collection: not destroyed and window reference set. -/
abbrev TabLive (t : Tab) : Prop := t.destroyed = false ∧ t.hasWindow = true

/-- The selection is well-formed for the list: unset only when the list is
empty, otherwise the id of a listed tab. -/
def selWF (selectedId : Option Nat) (l : List Tab) : Prop :=
  match selectedId with
  | none => l = []
  | some sid => sid ∈ tabIds l

instance (o : Option Nat) (l : List Tab) : Decidable (selWF o l) :=
  match o with
  | none => inferInstanceAs (Decidable (l = []))
  | some sid => inferInstanceAs (Decidable (sid ∈ tabIds l))

/-- Reachable-state invariant of a collection. -/
abbrev Inv (s : Tabs) : Prop :=
  (∀ t ∈ s.tabList, TabLive t) ∧
  (tabIds s.tabList).Nodup ∧
  (∀ t ∈ s.tabList, t.visible = true ↔ s.selected = some t.id) ∧
  selWF s.selected s.tabList ∧
  (s.windowLive = false → s.tabList = []) ∧
  (∀ x ∈ tabIds s.tabList, x < s.nextId)

/-- What every emitted tab-selected / tab-destroyed snapshot satisfies. -/
abbrev Obs.good (o : Obs) : Prop :=
  ((o.kind = .tabSelected ∨ o.kind = .tabDestroyed) →
    o.visibleIds.length ≤ 1 ∧ goodSel o.selectedId o.tabIds) ∧
  (o.kind = .tabDestroyed →
    o.payloadDestroyed = true ∧ o.payloadId ∉ o.tabIds)

/-- Invariant plus the guarantee over the whole event log. -/
abbrev InvT (s : Tabs) : Prop := Inv s ∧ ∀ o ∈ s.events, Obs.good o

/-! ### Pure shadows of the mutating operations on objects that hold a
window reference; the Except-valued operations reduce to these. -/

/-- The rectangle invalidateLayout computes for a window of size w by h. -/
def layoutRect (w h : Int) : Rect :=
  { x := 4, y := toolbarHeight + 4, width := w - 4 * 2,
    height := h - toolbarHeight - 4 * 2 }

/-- The effect of Tab.hide on a tab holding a window reference. -/
def hideP (t : Tab) : Tab :=
  { t with visible := false, resizeSubs := t.resizeSubs - 1 }

/-- The effect of Tab.show on a tab holding a window reference. -/
def showP (w h : Int) (t : Tab) : Tab :=
  { t with
    visible := true,
    resizeSubs := t.resizeSubs + 1,
    bounds := some (layoutRect w h),
    borderRadius := some 8 }

/-- The effect of Tab.destroy on a live tab. -/
def destroyP (t : Tab) : Tab :=
  { t with
    destroyed := true,
    visible := false,
    resizeSubs := t.resizeSubs - 1,
    attached := false,
    hasWindow := false }

@[simp] theorem hideP_id (t : Tab) : (hideP t).id = t.id := rfl
@[simp] theorem hideP_destroyed (t : Tab) : (hideP t).destroyed = t.destroyed := rfl
@[simp] theorem hideP_hasWindow (t : Tab) : (hideP t).hasWindow = t.hasWindow := rfl
@[simp] theorem hideP_visible (t : Tab) : (hideP t).visible = false := rfl
@[simp] theorem showP_id (w h : Int) (t : Tab) : (showP w h t).id = t.id := rfl
@[simp] theorem showP_destroyed (w h : Int) (t : Tab) :
    (showP w h t).destroyed = t.destroyed := rfl
@[simp] theorem showP_hasWindow (w h : Int) (t : Tab) :
    (showP w h t).hasWindow = t.hasWindow := rfl
@[simp] theorem showP_visible (w h : Int) (t : Tab) :
    (showP w h t).visible = true := rfl
@[simp] theorem destroyP_id (t : Tab) : (destroyP t).id = t.id := rfl
@[simp] theorem destroyP_destroyed (t : Tab) : (destroyP t).destroyed = true := rfl
@[simp] theorem destroyP_visible (t : Tab) : (destroyP t).visible = false := rfl

theorem Tab.hide_live (t : Tab) (hw : t.hasWindow = true) :
    t.hide = .ok (hideP t) := by
  simp [Tab.hide, Tab.stopResizeListener, hw, hideP]

theorem Tab.show_live (w h : Int) (t : Tab) (hw : t.hasWindow = true) :
    t.show w h = .ok (showP w h t) := by
  simp [Tab.show, Tab.invalidateLayout, Tab.startResizeListener, hw,
    showP, layoutRect]

theorem Tab.destroy_live (t : Tab) (hd : t.destroyed = false)
    (hw : t.hasWindow = true) : t.destroy = .ok (destroyP t) := by
  simp [Tab.destroy, hd, Tab.hide, Tab.stopResizeListener, hw, destroyP]

theorem Tab.destroy_again (t : Tab) (hd : t.destroyed = true) :
    t.destroy = .ok t := by
  simp [Tab.destroy, hd]

theorem Tab.show_dead (w h : Int) (t : Tab) (hw : t.hasWindow = false) :
    t.show w h = .error .typeError := by
  simp [Tab.show, Tab.invalidateLayout, hw]

theorem Tab.hide_dead (t : Tab) (hw : t.hasWindow = false) :
    t.hide = .error .typeError := by
  simp [Tab.hide, Tab.stopResizeListener, hw]

/-! ### Lemmas about the list primitives -/

@[simp] theorem tabIds_nil : tabIds [] = [] := rfl

@[simp] theorem tabIds_cons (t : Tab) (ts : List Tab) :
    tabIds (t :: ts) = t.id :: tabIds ts := rfl

@[simp] theorem tabIds_append (l1 l2 : List Tab) :
    tabIds (l1 ++ l2) = tabIds l1 ++ tabIds l2 := List.map_append _ _ _

theorem getTab_eq_none_iff (l : List Tab) (tid : Nat) :
    getTab l tid = none ↔ tid ∉ tabIds l := by
  induction l with
  | nil => simp [getTab]
  | cons t ts ih =>
    by_cases hh : t.id = tid
    · simp [getTab, hh]
    · simp only [getTab, hh, if_false, tabIds_cons, List.mem_cons, ih]
      constructor
      · intro hn
        rintro (hor | hor)
        · exact hh hor.symm
        · exact hn hor
      · intro hn hm
        exact hn (Or.inr hm)

theorem getTab_mem {l : List Tab} {tid : Nat} {t : Tab}
    (h : getTab l tid = some t) : t ∈ l ∧ t.id = tid := by
  induction l with
  | nil => simp [getTab] at h
  | cons u ts ih =>
    by_cases hh : u.id = tid
    · simp [getTab, hh] at h
      subst h
      exact ⟨List.mem_cons_self _ _, hh⟩
    · simp [getTab, hh] at h
      obtain ⟨hm, hid⟩ := ih h
      exact ⟨List.mem_cons_of_mem _ hm, hid⟩

theorem getTab_isSome_of_mem {l : List Tab} {tid : Nat}
    (h : tid ∈ tabIds l) : ∃ t, getTab l tid = some t := by
  cases hg : getTab l tid with
  | none => exact absurd h ((getTab_eq_none_iff l tid).mp hg)
  | some t => exact ⟨t, rfl⟩

theorem getTab_of_mem_nodup {l : List Tab} {t : Tab}
    (hm : t ∈ l) (hnd : (tabIds l).Nodup) : getTab l t.id = some t := by
  induction l with
  | nil => simp at hm
  | cons u ts ih =>
    simp only [tabIds_cons, List.nodup_cons] at hnd
    rcases List.mem_cons.mp hm with hm | hm
    · subst hm
      simp [getTab]
    · by_cases hh : u.id = t.id
      · exfalso
        exact hnd.1 (hh ▸ List.mem_map_of_mem Tab.id hm)
      · simp [getTab, hh]
        exact ih hm hnd.2

/-- Pure shadow of updateTabGet: update the first tab with the given id. -/
def setTab : List Tab → Nat → (Tab → Tab) → List Tab
  | [], _, _ => []
  | t :: ts, tid, g => if t.id = tid then g t :: ts else t :: setTab ts tid g

theorem updateTabGet_ok (l : List Tab) (tid : Nat)
    (f : Tab → Except JsError Tab) (g : Tab → Tab)
    (hf : ∀ t ∈ l, t.id = tid → f t = .ok (g t)) :
    updateTabGet l tid f = .ok (setTab l tid g, (getTab l tid).map g) := by
  induction l with
  | nil => simp [updateTabGet, setTab, getTab]
  | cons t ts ih =>
    by_cases hh : t.id = tid
    · simp [updateTabGet, setTab, getTab, hh,
        hf t (List.mem_cons_self _ _) hh]
    · have hrec := ih (fun u hu hid => hf u (List.mem_cons_of_mem _ hu) hid)
      simp [updateTabGet, setTab, getTab, hh, hrec]

theorem setTab_ids (l : List Tab) (tid : Nat) (g : Tab → Tab)
    (hg : ∀ t, (g t).id = t.id) :
    tabIds (setTab l tid g) = tabIds l := by
  induction l with
  | nil => rfl
  | cons t ts ih =>
    by_cases hh : t.id = tid
    · simp [setTab, hh, hg]
    · simp [setTab, hh, ih]

theorem setTab_forall {P : Tab → Prop} (l : List Tab) (tid : Nat)
    (g : Tab → Tab) (h1 : ∀ t ∈ l, P t) (h2 : ∀ t ∈ l, P (g t)) :
    ∀ u ∈ setTab l tid g, P u := by
  induction l with
  | nil => simp [setTab]
  | cons t ts ih =>
    by_cases hh : t.id = tid
    · simp only [setTab, hh, if_true]
      intro u hu
      rcases List.mem_cons.mp hu with h | h
      · exact h ▸ h2 t (List.mem_cons_self _ _)
      · exact h1 u (List.mem_cons_of_mem _ h)
    · simp only [setTab, hh, if_false]
      intro u hu
      rcases List.mem_cons.mp hu with h | h
      · exact h ▸ h1 t (List.mem_cons_self _ _)
      · exact ih (fun v hv => h1 v (List.mem_cons_of_mem _ hv))
          (fun v hv => h2 v (List.mem_cons_of_mem _ hv)) u h

theorem map_upd_of_not_mem (l : List Tab) (tid : Nat) (g : Tab → Tab)
    (h : tid ∉ tabIds l) :
    l.map (fun t => if t.id = tid then g t else t) = l := by
  induction l with
  | nil => rfl
  | cons t ts ih =>
    simp only [tabIds_cons, List.mem_cons] at h
    push_neg at h
    have hh : ¬ t.id = tid := fun he => h.1 he.symm
    simp [hh, ih h.2]

theorem setTab_eq_map (l : List Tab) (tid : Nat) (g : Tab → Tab)
    (hnd : (tabIds l).Nodup) :
    setTab l tid g = l.map (fun t => if t.id = tid then g t else t) := by
  induction l with
  | nil => rfl
  | cons t ts ih =>
    simp only [tabIds_cons, List.nodup_cons] at hnd
    by_cases hh : t.id = tid
    · have hts : tid ∉ tabIds ts := hh ▸ hnd.1
      simp [setTab, hh, map_upd_of_not_mem ts tid g hts]
    · simp [setTab, hh, ih hnd.2]

theorem getTab_setTab_self (l : List Tab) (tid : Nat) (g : Tab → Tab)
    (hg : ∀ t, (g t).id = t.id) :
    getTab (setTab l tid g) tid = (getTab l tid).map g := by
  induction l with
  | nil => rfl
  | cons t ts ih =>
    by_cases hh : t.id = tid
    · simp [setTab, getTab, hh, hg]
    · simp [setTab, getTab, hh, ih]

theorem setTab_append_snoc (l : List Tab) (t : Tab) (tid : Nat)
    (g : Tab → Tab) (h : tid ∉ tabIds l) (ht : t.id = tid) :
    setTab (l ++ [t]) tid g = l ++ [g t] := by
  induction l with
  | nil => simp [setTab, ht]
  | cons u us ih =>
    simp only [tabIds_cons, List.mem_cons] at h
    push_neg at h
    have hh : ¬ u.id = tid := fun he => h.1 he.symm
    simp [setTab, hh, ih h.2]

theorem getTab_append_snoc (l : List Tab) (t : Tab) (tid : Nat)
    (h : tid ∉ tabIds l) (ht : t.id = tid) :
    getTab (l ++ [t]) tid = some t := by
  induction l with
  | nil => simp [getTab, ht]
  | cons u us ih =>
    simp only [tabIds_cons, List.mem_cons] at h
    push_neg at h
    have hh : ¬ u.id = tid := fun he => h.1 he.symm
    simp [getTab, hh, ih h.2]

theorem findTabIndex_none_iff (l : List Tab) (tid : Nat) :
    findTabIndex l tid = none ↔ tid ∉ tabIds l := by
  induction l with
  | nil => simp [findTabIndex]
  | cons t ts ih =>
    by_cases hh : t.id = tid
    · simp [findTabIndex, hh]
    · simp only [findTabIndex, hh, if_false, tabIds_cons, List.mem_cons,
        Option.map_eq_none', ih]
      constructor
      · intro hn
        rintro (hor | hor)
        · exact hh hor.symm
        · exact hn hor
      · intro hn hm
        exact hn (Or.inr hm)

theorem idxGet_mem {l : List Tab} {i : Nat} {t : Tab}
    (h : idxGet l i = some t) : t ∈ l := by
  induction l generalizing i with
  | nil => simp [idxGet] at h
  | cons u ts ih =>
    cases i with
    | zero =>
      simp [idxGet] at h
      exact h ▸ List.mem_cons_self _ _
    | succ n => exact List.mem_cons_of_mem _ (ih h)

theorem idxGet_none_iff (l : List Tab) (i : Nat) :
    idxGet l i = none ↔ l.length ≤ i := by
  induction l generalizing i with
  | nil => simp [idxGet]
  | cons u ts ih =>
    cases i with
    | zero => simp [idxGet]
    | succ n => simp [idxGet, ih, Nat.succ_le_succ_iff]

theorem idxGet_isSome_of_lt {l : List Tab} {i : Nat} (h : i < l.length) :
    ∃ t, idxGet l i = some t := by
  cases hg : idxGet l i with
  | none => exact absurd ((idxGet_none_iff l i).mp hg) (Nat.not_le.mpr h)
  | some t => exact ⟨t, rfl⟩

theorem findTabIndex_spec {l : List Tab} {tid i : Nat}
    (h : findTabIndex l tid = some i) :
    ∃ t, idxGet l i = some t ∧ t.id = tid ∧ i < l.length := by
  induction l generalizing i with
  | nil => simp [findTabIndex] at h
  | cons t ts ih =>
    by_cases hh : t.id = tid
    · simp [findTabIndex, hh] at h
      exact h ▸ ⟨t, rfl, hh, Nat.succ_pos _⟩
    · simp only [findTabIndex, hh, if_false] at h
      cases hft : findTabIndex ts tid with
      | none => rw [hft] at h; simp at h
      | some j =>
        rw [hft] at h
        simp only [Option.map_some', Option.some.injEq] at h
        obtain ⟨u, h1, h2, h3⟩ := ih hft
        refine ⟨u, ?_, h2, ?_⟩
        · rw [← h]
          simpa [idxGet] using h1
        · rw [← h]
          simpa [List.length_cons] using Nat.succ_lt_succ h3

theorem dropIdx_subset (l : List Tab) (i : Nat) :
    ∀ t ∈ dropIdx l i, t ∈ l := by
  induction l generalizing i with
  | nil => simp [dropIdx]
  | cons u ts ih =>
    cases i with
    | zero => exact fun t ht => List.mem_cons_of_mem _ ht
    | succ n =>
      intro t ht
      rcases List.mem_cons.mp ht with h | h
      · exact h ▸ List.mem_cons_self _ _
      · exact List.mem_cons_of_mem _ (ih n t h)

theorem mem_ids_of_dropIdx {l : List Tab} {i : Nat} {x : Nat}
    (h : x ∈ tabIds (dropIdx l i)) : x ∈ tabIds l := by
  simp only [tabIds, List.mem_map] at h ⊢
  obtain ⟨t, ht, rfl⟩ := h
  exact ⟨t, dropIdx_subset l i t ht, rfl⟩

theorem nodup_dropIdx (l : List Tab) (i : Nat)
    (h : (tabIds l).Nodup) : (tabIds (dropIdx l i)).Nodup := by
  induction l generalizing i with
  | nil => simp [dropIdx]
  | cons u ts ih =>
    simp only [tabIds_cons, List.nodup_cons] at h
    cases i with
    | zero => exact h.2
    | succ n =>
      simp only [dropIdx, tabIds_cons, List.nodup_cons]
      exact ⟨fun hm => h.1 (mem_ids_of_dropIdx hm), ih n h.2⟩

theorem not_mem_ids_dropIdx {l : List Tab} {i : Nat} {t : Tab}
    (hget : idxGet l i = some t) (hnd : (tabIds l).Nodup) :
    t.id ∉ tabIds (dropIdx l i) := by
  induction l generalizing i with
  | nil => simp [idxGet] at hget
  | cons u ts ih =>
    simp only [tabIds_cons, List.nodup_cons] at hnd
    cases i with
    | zero =>
      simp [idxGet] at hget
      subst hget
      simpa [dropIdx] using hnd.1
    | succ n =>
      simp only [dropIdx, tabIds_cons, List.mem_cons]
      push_neg
      refine ⟨fun he => hnd.1 ?_, ih hget hnd.2⟩
      exact he ▸ List.mem_map_of_mem Tab.id (idxGet_mem hget)

theorem mem_ids_dropIdx_of_ne {l : List Tab} {i : Nat} {t : Tab} {x : Nat}
    (hget : idxGet l i = some t) (hne : x ≠ t.id) (hm : x ∈ tabIds l) :
    x ∈ tabIds (dropIdx l i) := by
  induction l generalizing i with
  | nil => simp at hm
  | cons u ts ih =>
    cases i with
    | zero =>
      simp [idxGet] at hget
      subst hget
      simp only [tabIds_cons, List.mem_cons] at hm
      rcases hm with hm | hm
      · exact absurd hm hne
      · simpa [dropIdx] using hm
    | succ n =>
      simp only [dropIdx, tabIds_cons, List.mem_cons] at hm ⊢
      rcases hm with hm | hm
      · exact Or.inl hm
      · exact Or.inr (ih hget hm)

theorem dropIdx_length {l : List Tab} {i : Nat} (h : i < l.length) :
    (dropIdx l i).length = l.length - 1 := by
  induction l generalizing i with
  | nil => simp at h
  | cons u ts ih =>
    cases i with
    | zero => simp [dropIdx]
    | succ n =>
      have hn : n < ts.length := Nat.lt_of_succ_lt_succ h
      simp only [dropIdx, List.length_cons, ih hn]
      omega

theorem natCount_eq_zero {ids : List Nat} {x : Nat} (h : x ∉ ids) :
    natCount ids x = 0 := by
  induction ids with
  | nil => rfl
  | cons y ys ih =>
    simp only [List.mem_cons] at h
    push_neg at h
    have hy : ¬ y = x := fun he => h.1 he.symm
    simp [natCount, hy, ih h.2]

theorem natCount_eq_one {ids : List Nat} {x : Nat} (hnd : ids.Nodup)
    (hm : x ∈ ids) : natCount ids x = 1 := by
  induction ids with
  | nil => simp at hm
  | cons y ys ih =>
    simp only [List.nodup_cons] at hnd
    rcases List.mem_cons.mp hm with hm | hm
    · subst hm
      simp [natCount, natCount_eq_zero hnd.1]
    · have hy : ¬ y = x := fun he => hnd.1 (he ▸ hm)
      simp [natCount, hy, ih hnd.2 hm]

theorem visIds_nil_of_no_id {l : List Tab} {x : Nat}
    (hvis : ∀ t ∈ l, t.visible = true → t.id = x) (hx : x ∉ tabIds l) :
    visIds l = [] := by
  induction l with
  | nil => rfl
  | cons t ts ih =>
    simp only [tabIds_cons, List.mem_cons] at hx
    push_neg at hx
    have hv : t.visible = false := by
      cases hvt : t.visible
      · rfl
      · exact absurd (hvis t (List.mem_cons_self _ _) hvt).symm hx.1
    simp [visIds, hv,
      ih (fun u hu => hvis u (List.mem_cons_of_mem _ hu)) hx.2]

theorem visIds_nil_of_hidden {l : List Tab}
    (h : ∀ t ∈ l, t.visible = false) : visIds l = [] := by
  induction l with
  | nil => rfl
  | cons t ts ih =>
    simp [visIds, h t (List.mem_cons_self _ _),
      ih (fun u hu => h u (List.mem_cons_of_mem _ hu))]

theorem visIds_length_le_one {l : List Tab} {x : Nat}
    (hnd : (tabIds l).Nodup)
    (hvis : ∀ t ∈ l, t.visible = true → t.id = x) :
    (visIds l).length ≤ 1 := by
  induction l with
  | nil => simp [visIds]
  | cons t ts ih =>
    simp only [tabIds_cons, List.nodup_cons] at hnd
    cases hvt : t.visible
    · simp only [visIds, hvt, if_false]
      exact ih hnd.2 (fun u hu => hvis u (List.mem_cons_of_mem _ hu))
    · have hid : t.id = x := hvis t (List.mem_cons_self _ _) hvt
      have hts : visIds ts = [] :=
        visIds_nil_of_no_id
          (fun u hu hv => hvis u (List.mem_cons_of_mem _ hu) hv)
          (hid ▸ hnd.1)
      simp [visIds, hvt, hts]

/-! ### Unfolding the collection operations on well-formed states -/

/-- The tab list after the hide-selected phase of Tabs.select. -/
def hideSel (s : Tabs) : List Tab :=
  match s.selected with
  | some sid => setTab s.tabList sid hideP
  | none => s.tabList

/-- The state Tabs.select produces when the target id resolves, phrased with
the pure shadows; tb is the target tab after the hide-selected phase. -/
def afterSel (s : Tabs) (tid : Nat) (tb : Tab) : Tabs :=
  let l2 := setTab (hideSel s) tid (showP s.winW s.winH)
  let s1 := { s with tabList := l2, selected := some tid }
  { s1 with
    events := s1.events ++ [snapshot .tabSelected (showP s.winW s.winH tb) s1] }

theorem hideSel_ids (s : Tabs) : tabIds (hideSel s) = tabIds s.tabList := by
  unfold hideSel
  cases s.selected with
  | none => rfl
  | some sid => exact setTab_ids _ _ _ (fun t => rfl)

theorem hideSel_hasWindow (s : Tabs)
    (hL : ∀ t ∈ s.tabList, t.hasWindow = true) :
    ∀ t ∈ hideSel s, t.hasWindow = true := by
  unfold hideSel
  cases s.selected with
  | none => exact hL
  | some sid => exact setTab_forall _ _ _ hL (fun t ht => hL t ht)

theorem select_desc (s : Tabs) (tid : Nat) (tb : Tab)
    (hL : ∀ t ∈ s.tabList, t.hasWindow = true)
    (ht : getTab (hideSel s) tid = some tb) :
    s.select tid = .ok (afterSel s tid tb) := by
  have hmem : tid ∈ tabIds s.tabList := by
    have h1 := (getTab_mem ht).1
    have h2 := (getTab_mem ht).2
    have h3 : tid ∈ tabIds (hideSel s) := h2 ▸ List.mem_map_of_mem Tab.id h1
    exact (hideSel_ids s) ▸ h3
  obtain ⟨t0, hget0⟩ := getTab_isSome_of_mem hmem
  have hupd : updateTabGet (hideSel s) tid (Tab.show s.winW s.winH)
      = .ok (setTab (hideSel s) tid (showP s.winW s.winH),
             some (showP s.winW s.winH tb)) := by
    have hu := updateTabGet_ok (hideSel s) tid _ (showP s.winW s.winH)
      (fun t htm _ => Tab.show_live _ _ t (hideSel_hasWindow s hL t htm))
    rw [hu, ht]
    rfl
  cases hsel : s.selected with
  | none =>
    have hhs : hideSel s = s.tabList := by simp [hideSel, hsel]
    rw [hhs] at hupd
    simp only [Tabs.select, Tabs.get, hget0, hsel, hupd]
    simp [afterSel, hideSel, hsel]
  | some sid =>
    have hupd2 : updateTabGet s.tabList sid Tab.hide
        = .ok (setTab s.tabList sid hideP, (getTab s.tabList sid).map hideP) :=
      updateTabGet_ok _ _ _ _ (fun t htm _ => Tab.hide_live t (hL t htm))
    have hhs : hideSel s = setTab s.tabList sid hideP := by
      simp [hideSel, hsel]
    rw [hhs] at hupd
    simp only [Tabs.select, Tabs.get, hget0, hsel, hupd2, hupd]
    simp [afterSel, hideSel, hsel]

@[simp] theorem afterSel_tabList (s : Tabs) (tid : Nat) (tb : Tab) :
    (afterSel s tid tb).tabList
      = setTab (hideSel s) tid (showP s.winW s.winH) := rfl

@[simp] theorem afterSel_selected (s : Tabs) (tid : Nat) (tb : Tab) :
    (afterSel s tid tb).selected = some tid := rfl

@[simp] theorem afterSel_windowLive (s : Tabs) (tid : Nat) (tb : Tab) :
    (afterSel s tid tb).windowLive = s.windowLive := rfl

@[simp] theorem afterSel_windowDestroyCount (s : Tabs) (tid : Nat) (tb : Tab) :
    (afterSel s tid tb).windowDestroyCount = s.windowDestroyCount := rfl

@[simp] theorem afterSel_winW (s : Tabs) (tid : Nat) (tb : Tab) :
    (afterSel s tid tb).winW = s.winW := rfl

@[simp] theorem afterSel_winH (s : Tabs) (tid : Nat) (tb : Tab) :
    (afterSel s tid tb).winH = s.winH := rfl

@[simp] theorem afterSel_nextId (s : Tabs) (tid : Nat) (tb : Tab) :
    (afterSel s tid tb).nextId = s.nextId := rfl

@[simp] theorem afterSel_events (s : Tabs) (tid : Nat) (tb : Tab) :
    (afterSel s tid tb).events
      = s.events ++ [snapshot .tabSelected (showP s.winW s.winH tb)
          { s with tabList := setTab (hideSel s) tid (showP s.winW s.winH),
                   selected := some tid }] := rfl

@[simp] theorem afterSel_ids (s : Tabs) (tid : Nat) (tb : Tab) :
    tabIds (afterSel s tid tb).tabList = tabIds s.tabList := by
  rw [afterSel_tabList,
    setTab_ids (hideSel s) tid (showP s.winW s.winH) (fun t => rfl),
    hideSel_ids]

theorem afterSel_vis (s : Tabs) (tid : Nat)
    (hnd : (tabIds s.tabList).Nodup)
    (hvis : ∀ t ∈ s.tabList, t.visible = true →
      (s.selected = some t.id ∨ t.id = tid)) :
    ∀ u ∈ setTab (hideSel s) tid (showP s.winW s.winH),
      u.visible = true ↔ u.id = tid := by
  have hndh : (tabIds (hideSel s)).Nodup := by rw [hideSel_ids]; exact hnd
  rw [setTab_eq_map _ _ _ hndh]
  intro u hu
  rw [List.mem_map] at hu
  obtain ⟨t1, ht1, rfl⟩ := hu
  by_cases h1 : t1.id = tid
  · simp [h1]
  · simp only [h1, if_false]
    constructor
    · intro hv
      exfalso
      cases hsel : s.selected with
      | none =>
        have hhs : hideSel s = s.tabList := by simp [hideSel, hsel]
        rw [hhs] at ht1
        rcases hvis t1 ht1 hv with hc | hc
        · rw [hsel] at hc
          exact Option.noConfusion hc
        · exact h1 hc
      | some sid =>
        have hhs : hideSel s = setTab s.tabList sid hideP := by
          simp [hideSel, hsel]
        rw [hhs, setTab_eq_map _ _ _ hnd] at ht1
        rw [List.mem_map] at ht1
        obtain ⟨t0, ht0, heq⟩ := ht1
        by_cases h0 : t0.id = sid
        · rw [if_pos h0] at heq
          rw [← heq] at hv
          simp at hv
        · rw [if_neg h0] at heq
          subst heq
          rcases hvis t0 ht0 hv with hc | hc
          · rw [hsel] at hc
            exact h0 (Option.some.inj hc).symm
          · exact h1 hc
    · intro hid
      exact hid.elim

theorem afterSel_invt (s : Tabs) (tid : Nat) (tb : Tab)
    (hL : ∀ t ∈ s.tabList, TabLive t)
    (hnd : (tabIds s.tabList).Nodup)
    (hvis : ∀ t ∈ s.tabList, t.visible = true →
      (s.selected = some t.id ∨ t.id = tid))
    (hfresh : ∀ x ∈ tabIds s.tabList, x < s.nextId)
    (hwin : s.windowLive = true)
    (hgood : ∀ o ∈ s.events, Obs.good o)
    (hmem : tid ∈ tabIds s.tabList) :
    InvT (afterSel s tid tb) := by
  have hLh : ∀ t ∈ hideSel s, TabLive t := by
    unfold hideSel
    cases s.selected with
    | none => exact hL
    | some sid => exact setTab_forall _ _ _ hL (fun t ht => hL t ht)
  have hL2 : ∀ t ∈ setTab (hideSel s) tid (showP s.winW s.winH), TabLive t :=
    setTab_forall _ _ _ hLh (fun t ht => hLh t ht)
  have hvis2 := afterSel_vis s tid hnd hvis
  have hids := afterSel_ids s tid tb
  constructor
  · refine ⟨hL2, ?_, ?_, ?_, ?_, ?_⟩
    · rw [hids]; exact hnd
    · intro t ht
      rw [afterSel_tabList] at ht
      rw [afterSel_selected]
      rw [hvis2 t ht]
      constructor
      · intro he; exact he ▸ rfl
      · intro he; exact (Option.some.inj he).symm
    · show selWF (afterSel s tid tb).selected (afterSel s tid tb).tabList
      rw [afterSel_selected]
      show tid ∈ tabIds (afterSel s tid tb).tabList
      rw [hids]
      exact hmem
    · intro hf
      rw [afterSel_windowLive, hwin] at hf
      cases hf
    · rw [hids, afterSel_nextId]
      exact hfresh
  · rw [afterSel_events]
    intro o ho
    rcases List.mem_append.mp ho with ho | ho
    · exact hgood o ho
    · rw [List.mem_singleton] at ho
      subst ho
      have hnd2 : (tabIds (setTab (hideSel s) tid
          (showP s.winW s.winH))).Nodup := by
        rw [setTab_ids (hideSel s) tid (showP s.winW s.winH) (fun t => rfl),
          hideSel_ids]
        exact hnd
      constructor
      · intro _
        constructor
        · show (visIds (setTab (hideSel s) tid (showP s.winW s.winH))).length ≤ 1
          exact visIds_length_le_one hnd2 (fun t ht hv => (hvis2 t ht).mp hv)
        · show goodSel (some tid)
            (tabIds (setTab (hideSel s) tid (showP s.winW s.winH)))
          show natCount (tabIds (setTab (hideSel s) tid
            (showP s.winW s.winH))) tid = 1
          rw [setTab_ids (hideSel s) tid (showP s.winW s.winH) (fun t => rfl),
            hideSel_ids]
          exact natCount_eq_one hnd hmem
      · intro hk
        simp [snapshot] at hk

@[simp] theorem mkTab_id (n : Nat) : (Tab.mkTab n).id = n := rfl
@[simp] theorem mkTab_hasWindow (n : Nat) : (Tab.mkTab n).hasWindow = true := rfl
@[simp] theorem mkTab_destroyed (n : Nat) : (Tab.mkTab n).destroyed = false := rfl
@[simp] theorem mkTab_visible (n : Nat) : (Tab.mkTab n).visible = false := rfl

/-- The intermediate state of Tabs.create at the tab-created emission: the
new tab pushed and shown, the selection defaulted when it was unset, the id
allocated, and the tab-created snapshot appended. -/
def midCreate (s : Tabs) : Tabs :=
  let tab := showP s.winW s.winH (Tab.mkTab s.nextId)
  let sel1 := match s.selected with
              | none => some s.nextId
              | some sid => some sid
  let s2 := { s with
              tabList := s.tabList ++ [tab],
              selected := sel1,
              nextId := s.nextId + 1 }
  { s2 with events := s2.events ++ [snapshot .tabCreated tab s2] }

@[simp] theorem midCreate_tabList (s : Tabs) :
    (midCreate s).tabList
      = s.tabList ++ [showP s.winW s.winH (Tab.mkTab s.nextId)] := rfl

@[simp] theorem midCreate_winW (s : Tabs) : (midCreate s).winW = s.winW := rfl
@[simp] theorem midCreate_winH (s : Tabs) : (midCreate s).winH = s.winH := rfl
@[simp] theorem midCreate_windowLive (s : Tabs) :
    (midCreate s).windowLive = s.windowLive := rfl
@[simp] theorem midCreate_nextId (s : Tabs) :
    (midCreate s).nextId = s.nextId + 1 := rfl

theorem create_desc (s : Tabs)
    (hwin : s.windowLive = true)
    (hL : ∀ t ∈ s.tabList, t.hasWindow = true)
    (hfresh : s.nextId ∉ tabIds s.tabList) :
    ∃ tb, getTab (hideSel (midCreate s)) s.nextId = some tb ∧
      s.create = .ok (afterSel (midCreate s) s.nextId tb,
                      showP s.winW s.winH tb) := by
  have hL1 : ∀ t ∈ s.tabList ++ [Tab.mkTab s.nextId], t.hasWindow = true := by
    intro t ht
    rcases List.mem_append.mp ht with h | h
    · exact hL t h
    · rw [List.mem_singleton] at h
      subst h
      rfl
  have hupd : updateTabGet (s.tabList ++ [Tab.mkTab s.nextId]) s.nextId
      (Tab.show s.winW s.winH)
      = .ok (s.tabList ++ [showP s.winW s.winH (Tab.mkTab s.nextId)],
             some (showP s.winW s.winH (Tab.mkTab s.nextId))) := by
    rw [updateTabGet_ok (s.tabList ++ [Tab.mkTab s.nextId]) s.nextId _
      (showP s.winW s.winH) (fun t ht _ => Tab.show_live _ _ t (hL1 t ht))]
    rw [setTab_append_snoc s.tabList (Tab.mkTab s.nextId) s.nextId _ hfresh rfl]
    rw [getTab_append_snoc s.tabList (Tab.mkTab s.nextId) s.nextId hfresh rfl]
    rfl
  have hmemMid : s.nextId ∈ tabIds (midCreate s).tabList := by
    simp
  have hmemH : s.nextId ∈ tabIds (hideSel (midCreate s)) := by
    rw [hideSel_ids]
    exact hmemMid
  obtain ⟨tb, htb⟩ := getTab_isSome_of_mem hmemH
  have hLmid : ∀ t ∈ (midCreate s).tabList, t.hasWindow = true := by
    intro t ht
    rw [midCreate_tabList] at ht
    rcases List.mem_append.mp ht with h | h
    · exact hL t h
    · rw [List.mem_singleton] at h
      subst h
      rfl
  have hselDesc := select_desc (midCreate s) s.nextId tb hLmid htb
  have hret : getTab (setTab (hideSel (midCreate s)) s.nextId
      (showP s.winW s.winH)) s.nextId
      = some (showP s.winW s.winH tb) := by
    rw [getTab_setTab_self (hideSel (midCreate s)) s.nextId
      (showP s.winW s.winH) (fun t => rfl), htb]
    rfl
  refine ⟨tb, htb, ?_⟩
  cases hsel : s.selected with
  | none =>
    have hstep : s.create
        = match (midCreate s).select s.nextId with
          | .error e => .error e
          | .ok s5 =>
            .ok (s5, (getTab s5.tabList s.nextId).getD (Tab.mkTab s.nextId)) := by
      simp [Tabs.create, hwin, hsel, hupd, midCreate, snapshot]
    rw [hstep, hselDesc]
    simp [hret]
  | some sid =>
    have hstep : s.create
        = match (midCreate s).select s.nextId with
          | .error e => .error e
          | .ok s5 =>
            .ok (s5, (getTab s5.tabList s.nextId).getD (Tab.mkTab s.nextId)) := by
      simp [Tabs.create, hwin, hsel, hupd, midCreate, snapshot]
    rw [hstep, hselDesc]
    simp [hret]

theorem destroyAllTabs_live (l : List Tab) (hL : ∀ t ∈ l, TabLive t) :
    destroyAllTabs l = .ok (l.map destroyP) := by
  induction l with
  | nil => rfl
  | cons t ts ih =>
    have h := hL t (List.mem_cons_self _ _)
    simp [destroyAllTabs, Tab.destroy_live t h.1 h.2,
      ih (fun u hu => hL u (List.mem_cons_of_mem _ hu))]

theorem destroy_desc (s : Tabs) (hL : ∀ t ∈ s.tabList, TabLive t) :
    s.destroy = .ok (if s.windowLive
      then { s with tabList := [], selected := none, windowLive := false,
                    windowDestroyCount := s.windowDestroyCount + 1 }
      else { s with tabList := [], selected := none }) := by
  simp only [Tabs.destroy, destroyAllTabs_live s.tabList hL]
  cases hw : s.windowLive <;> simp [hw]

theorem tabIds_length (l : List Tab) : (tabIds l).length = l.length :=
  List.length_map l Tab.id

theorem nodup_snoc {l : List Nat} {x : Nat} (h : l.Nodup) (hx : x ∉ l) :
    (l ++ [x]).Nodup := by
  induction l with
  | nil => simp
  | cons y ys ih =>
    simp only [List.nodup_cons] at h
    simp only [List.mem_cons] at hx
    push_neg at hx
    simp only [List.cons_append, List.nodup_cons]
    refine ⟨?_, ih h.2 hx.2⟩
    intro hm
    rcases List.mem_append.mp hm with hm | hm
    · exact h.1 hm
    · rw [List.mem_singleton] at hm
      exact hx.1 hm.symm

theorem jsNextTab_mem {l : List Tab} {i : Nat} {nt : Tab}
    (h : jsNextTab l i = some nt) : nt ∈ l := by
  unfold jsNextTab at h
  cases hg : idxGet l i with
  | some m =>
    rw [hg] at h
    cases h
    exact idxGet_mem hg
  | none =>
    rw [hg] at h
    by_cases h0 : i = 0
    · rw [if_pos h0] at h
      cases h
    · rw [if_neg h0] at h
      exact idxGet_mem h

theorem jsNextTab_eq_none {l : List Tab} {i : Nat} (hle : i ≤ l.length)
    (h : jsNextTab l i = none) : l = [] := by
  unfold jsNextTab at h
  cases hg : idxGet l i with
  | some nt =>
    rw [hg] at h
    cases h
  | none =>
    rw [hg] at h
    have h1 : l.length ≤ i := (idxGet_none_iff _ _).mp hg
    have heq : l.length = i := Nat.le_antisymm h1 hle
    by_cases h0 : i = 0
    · subst h0
      cases l with
      | nil => rfl
      | cons t ts => simp at heq
    · rw [if_neg h0] at h
      have h2 : l.length ≤ i - 1 := (idxGet_none_iff _ _).mp h
      exfalso
      omega

/-- Every state satisfying the invariant has at most one visible tab and a
selection matching exactly one tab id (or an empty list and no selection). -/
theorem Inv_obsFacts {s : Tabs} (h : Inv s) :
    (visIds s.tabList).length ≤ 1 ∧ goodSel s.selected (tabIds s.tabList) := by
  obtain ⟨hL, hnd, hvis, hselm, hwinE, hfresh⟩ := h
  cases hsel : s.selected with
  | none =>
    simp only [hsel] at hselm
    constructor
    · rw [hselm]
      simp [visIds]
    · show tabIds s.tabList = []
      rw [hselm]
      rfl
  | some sid =>
    simp only [hsel] at hselm
    constructor
    · refine visIds_length_le_one (x := sid) hnd (fun t ht hv => ?_)
      have hc := (hvis t ht).mp hv
      rw [hsel] at hc
      exact (Option.some.inj hc).symm
    · show natCount (tabIds s.tabList) sid = 1
      exact natCount_eq_one hnd hselm

/-- Inv talks only about the tab list, selection, window and ids, never the
event log, so replacing the log preserves it. -/
theorem Inv_set_events {s : Tabs} (es : List Obs) (h : Inv s) :
    Inv { s with events := es } := h

/-- States with no tabs and no selection satisfy the invariant. -/
theorem Inv_dead (s : Tabs) (h1 : s.tabList = []) (h2 : s.selected = none) :
    Inv s := by
  refine ⟨?_, ?_, ?_, ?_, ?_, ?_⟩ <;> simp [h1, h2, selWF]

theorem remove_invt (s : Tabs) (tid : Nat) (h : InvT s) :
    InvT (Tabs.runOp s (.remove tid)) := by
  obtain ⟨hInv, hgood⟩ := h
  obtain ⟨hL, hnd, hvis, hselm, hwinE, hfresh⟩ := hInv
  cases hidx : findTabIndex s.tabList tid with
  | none =>
    have hrem : s.remove tid = .error (.notFound tid) := by
      simp [Tabs.remove, hidx]
    simp only [Tabs.runOp, Tabs.applyOp, hrem]
    exact ⟨⟨hL, hnd, hvis, hselm, hwinE, hfresh⟩, hgood⟩
  | some i =>
    obtain ⟨t0, hget0, hid0, hlt⟩ := findTabIndex_spec hidx
    have ht0mem : t0 ∈ s.tabList := idxGet_mem hget0
    have hlive0 := hL t0 ht0mem
    have hwin : s.windowLive = true := by
      cases hww : s.windowLive
      · rw [hwinE hww] at ht0mem
        simp at ht0mem
      · rfl
    have hdes : t0.destroy = .ok (destroyP t0) :=
      Tab.destroy_live t0 hlive0.1 hlive0.2
    have hile : i ≤ (dropIdx s.tabList i).length := by
      rw [dropIdx_length hlt]
      omega
    have hndl1 : (tabIds (dropIdx s.tabList i)).Nodup := nodup_dropIdx _ _ hnd
    have hLl1 : ∀ t ∈ dropIdx s.tabList i, TabLive t :=
      fun t ht => hL t (dropIdx_subset _ _ t ht)
    have hnotmem : t0.id ∉ tabIds (dropIdx s.tabList i) :=
      not_mem_ids_dropIdx hget0 hnd
    by_cases hselC : s.selected = some t0.id
    · -- the removed tab was the selected one
      cases hnt : jsNextTab (dropIdx s.tabList i) i with
      | none =>
        have hl1nil : dropIdx s.tabList i = [] := jsNextTab_eq_none hile hnt
        rw [hl1nil] at hnt
        have hrem : s.remove tid = .ok { s with tabList := [], selected := none, windowLive := false, windowDestroyCount := s.windowDestroyCount + 1, events := s.events ++ [snapshot .tabDestroyed (destroyP t0) { s with tabList := [], selected := none }] } := by
          simp [Tabs.remove, hidx, hget0, hdes, hselC, hnt, hl1nil, Tabs.destroy, destroyAllTabs, hwin]
        have hrun : Tabs.runOp s (.remove tid) = { s with tabList := [], selected := none, windowLive := false, windowDestroyCount := s.windowDestroyCount + 1, events := s.events ++ [snapshot .tabDestroyed (destroyP t0) { s with tabList := [], selected := none }] } := by
          simp [Tabs.runOp, Tabs.applyOp, hrem]
        rw [hrun]
        refine ⟨Inv_dead _ rfl rfl, ?_⟩
        intro o ho
        rcases List.mem_append.mp ho with ho | ho
        · exact hgood o ho
        · rw [List.mem_singleton] at ho
          subst ho
          constructor
          · intro _
            exact ⟨by simp [snapshot, visIds], by simp [snapshot, goodSel]⟩
          · intro _
            exact ⟨rfl, by simp [snapshot]⟩
      | some nt =>
        have hntmem : nt ∈ dropIdx s.tabList i := jsNextTab_mem hnt
        have hntid : nt.id ∈ tabIds (dropIdx s.tabList i) :=
          List.mem_map_of_mem Tab.id hntmem
        have htb : getTab (hideSel { s with tabList := dropIdx s.tabList i, selected := none }) nt.id = some nt := by
          show getTab (dropIdx s.tabList i) nt.id = some nt
          exact getTab_of_mem_nodup hntmem hndl1
        have hseld := select_desc { s with tabList := dropIdx s.tabList i, selected := none } nt.id nt (fun t ht => (hLl1 t ht).2) htb
        have hlen : (setTab (hideSel { s with tabList := dropIdx s.tabList i, selected := none }) nt.id (showP s.winW s.winH)).length ≠ 0 := by
          intro h0
          rw [List.length_eq_zero] at h0
          have hm : nt.id ∈ tabIds (setTab (hideSel { s with tabList := dropIdx s.tabList i, selected := none }) nt.id (showP s.winW s.winH)) := by
            rw [setTab_ids (hideSel { s with tabList := dropIdx s.tabList i, selected := none }) nt.id (showP s.winW s.winH) (fun t => rfl), hideSel_ids]
            exact hntid
          rw [h0] at hm
          simp at hm
        have hrem : s.remove tid = .ok { afterSel { s with tabList := dropIdx s.tabList i, selected := none } nt.id nt with events := (afterSel { s with tabList := dropIdx s.tabList i, selected := none } nt.id nt).events ++ [snapshot .tabDestroyed (destroyP t0) (afterSel { s with tabList := dropIdx s.tabList i, selected := none } nt.id nt)] } := by
          simp [Tabs.remove, hidx, hget0, hdes, hselC, hnt, hseld, hlen]
        have hinv3 : InvT (afterSel { s with tabList := dropIdx s.tabList i, selected := none } nt.id nt) := by
          apply afterSel_invt
          · exact hLl1
          · exact hndl1
          · intro t ht hv
            exfalso
            have hth : t.id = t0.id := by
              have hc := (hvis t (dropIdx_subset _ _ t ht)).mp hv
              rw [hselC] at hc
              exact (Option.some.inj hc).symm
            exact hnotmem (hth ▸ List.mem_map_of_mem Tab.id ht)
          · exact fun x hx => hfresh x (mem_ids_of_dropIdx hx)
          · exact hwin
          · exact hgood
          · exact hntid
        have hrun : Tabs.runOp s (.remove tid) = { afterSel { s with tabList := dropIdx s.tabList i, selected := none } nt.id nt with events := (afterSel { s with tabList := dropIdx s.tabList i, selected := none } nt.id nt).events ++ [snapshot .tabDestroyed (destroyP t0) (afterSel { s with tabList := dropIdx s.tabList i, selected := none } nt.id nt)] } := by
          simp [Tabs.runOp, Tabs.applyOp, hrem]
        rw [hrun]
        refine ⟨Inv_set_events _ hinv3.1, ?_⟩
        intro o ho
        rcases List.mem_append.mp ho with ho | ho
        · exact hinv3.2 o ho
        · rw [List.mem_singleton] at ho
          subst ho
          constructor
          · intro _
            exact Inv_obsFacts hinv3.1
          · intro _
            refine ⟨rfl, ?_⟩
            show t0.id ∉ tabIds (afterSel { s with tabList := dropIdx s.tabList i, selected := none } nt.id nt).tabList
            rw [afterSel_ids]
            exact hnotmem
    · -- the removed tab was not the selected one
      have hsid : ∃ sid, s.selected = some sid ∧ sid ∈ tabIds s.tabList ∧ sid ≠ t0.id := by
        cases hsel : s.selected with
        | none =>
          simp only [hsel] at hselm
          rw [hselm] at ht0mem
          simp at ht0mem
        | some sid =>
          simp only [hsel] at hselm
          refine ⟨sid, rfl, hselm, ?_⟩
          intro he
          exact hselC (by rw [hsel, he])
      obtain ⟨sid, hsel, hsidmem, hsidne⟩ := hsid
      have hsidl1 : sid ∈ tabIds (dropIdx s.tabList i) :=
        mem_ids_dropIdx_of_ne hget0 hsidne hsidmem
      have hl1ne : (dropIdx s.tabList i).length ≠ 0 := by
        intro h0
        rw [List.length_eq_zero] at h0
        rw [h0] at hsidl1
        simp at hsidl1
      have hrem : s.remove tid = .ok { s with tabList := dropIdx s.tabList i, events := s.events ++ [snapshot .tabDestroyed (destroyP t0) { s with tabList := dropIdx s.tabList i }] } := by
        simp [Tabs.remove, hidx, hget0, hdes, hselC, hl1ne]
      have hrun : Tabs.runOp s (.remove tid) = { s with tabList := dropIdx s.tabList i, events := s.events ++ [snapshot .tabDestroyed (destroyP t0) { s with tabList := dropIdx s.tabList i }] } := by
        simp [Tabs.runOp, Tabs.applyOp, hrem]
      rw [hrun]
      constructor
      · refine ⟨hLl1, hndl1, ?_, ?_, ?_, ?_⟩
        · intro t ht
          exact hvis t (dropIdx_subset _ _ t ht)
        · show (match s.selected with
            | none => dropIdx s.tabList i = []
            | some x => x ∈ tabIds (dropIdx s.tabList i))
          rw [hsel]
          exact hsidl1
        · intro hf
          rw [hwin] at hf
          cases hf
        · exact fun x hx => hfresh x (mem_ids_of_dropIdx hx)
      · intro o ho
        rcases List.mem_append.mp ho with ho | ho
        · exact hgood o ho
        · rw [List.mem_singleton] at ho
          subst ho
          constructor
          · intro _
            constructor
            · show (visIds (dropIdx s.tabList i)).length ≤ 1
              refine visIds_length_le_one (x := sid) hndl1 (fun t ht hv => ?_)
              have hc := (hvis t (dropIdx_subset _ _ t ht)).mp hv
              rw [hsel] at hc
              exact (Option.some.inj hc).symm
            · show goodSel s.selected (tabIds (dropIdx s.tabList i))
              rw [hsel]
              show natCount (tabIds (dropIdx s.tabList i)) sid = 1
              exact natCount_eq_one hndl1 hsidl1
          · intro _
            exact ⟨rfl, hnotmem⟩

@[simp] theorem midCreate_selected (s : Tabs) :
    (midCreate s).selected = match s.selected with
      | none => some s.nextId
      | some sid => some sid := rfl

theorem midCreate_events (s : Tabs) :
    (midCreate s).events = s.events
      ++ [snapshot .tabCreated (showP s.winW s.winH (Tab.mkTab s.nextId))
          { s with
            tabList := s.tabList ++ [showP s.winW s.winH (Tab.mkTab s.nextId)],
            selected := match s.selected with
              | none => some s.nextId
              | some sid => some sid,
            nextId := s.nextId + 1 }] := rfl

theorem runOp_invt (s : Tabs) (op : Op) (h : InvT s) : InvT (s.runOp op) := by
  cases op with
  | remove tid => exact remove_invt s tid h
  | create =>
    obtain ⟨hInv, hgood⟩ := h
    obtain ⟨hL, hnd, hvis, hselm, hwinE, hfresh⟩ := hInv
    cases hwin : s.windowLive with
    | false =>
      have hc : s.create = .error .typeError := by simp [Tabs.create, hwin]
      simp only [Tabs.runOp, Tabs.applyOp, hc]
      exact ⟨⟨hL, hnd, hvis, hselm, hwinE, hfresh⟩, hgood⟩
    | true =>
      have hfr : s.nextId ∉ tabIds s.tabList := fun hm =>
        absurd (hfresh _ hm) (lt_irrefl _)
      obtain ⟨tb, htb, hc⟩ := create_desc s hwin (fun t ht => (hL t ht).2) hfr
      have hrun : s.runOp .create = afterSel (midCreate s) s.nextId tb := by
        simp [Tabs.runOp, Tabs.applyOp, hc]
      rw [hrun]
      apply afterSel_invt
      · intro t ht
        rw [midCreate_tabList] at ht
        rcases List.mem_append.mp ht with h1 | h1
        · exact hL t h1
        · rw [List.mem_singleton] at h1
          subst h1
          exact ⟨rfl, rfl⟩
      · show (tabIds (midCreate s).tabList).Nodup
        rw [midCreate_tabList, tabIds_append]
        exact nodup_snoc hnd hfr
      · intro t ht hv
        rw [midCreate_tabList] at ht
        rcases List.mem_append.mp ht with h1 | h1
        · left
          have hc2 := (hvis t h1).mp hv
          cases hsel : s.selected with
          | none =>
            rw [hsel] at hc2
            cases hc2
          | some sid =>
            simp only [midCreate_selected, hsel]
            rw [← hsel]
            exact hc2
        · right
          rw [List.mem_singleton] at h1
          subst h1
          rfl
      · intro x hx
        rw [midCreate_tabList, tabIds_append] at hx
        rw [midCreate_nextId]
        rcases List.mem_append.mp hx with hx | hx
        · exact Nat.lt_succ_of_lt (hfresh x hx)
        · simp only [tabIds_cons, showP_id, mkTab_id, tabIds_nil,
            List.mem_singleton] at hx
          subst hx
          exact Nat.lt_succ_self _
      · show (midCreate s).windowLive = true
        rw [midCreate_windowLive]
        exact hwin
      · intro o ho
        rw [midCreate_events] at ho
        rcases List.mem_append.mp ho with ho | ho
        · exact hgood o ho
        · rw [List.mem_singleton] at ho
          subst ho
          constructor
          · intro hk
            rcases hk with hk | hk <;> simp [snapshot] at hk
          · intro hk
            simp [snapshot] at hk
      · simp
  | select tid =>
    obtain ⟨hInv, hgood⟩ := h
    obtain ⟨hL, hnd, hvis, hselm, hwinE, hfresh⟩ := hInv
    cases hg : getTab s.tabList tid with
    | none =>
      have hsel0 : s.select tid = .ok s := by
        simp [Tabs.select, Tabs.get, hg]
      simp only [Tabs.runOp, Tabs.applyOp, hsel0]
      exact ⟨⟨hL, hnd, hvis, hselm, hwinE, hfresh⟩, hgood⟩
    | some t0 =>
      have hmem : tid ∈ tabIds s.tabList := by
        have h1 := (getTab_mem hg).1
        have h2 := (getTab_mem hg).2
        exact h2 ▸ List.mem_map_of_mem Tab.id h1
      have hwin : s.windowLive = true := by
        cases hww : s.windowLive
        · rw [hwinE hww] at hmem
          simp at hmem
        · rfl
      obtain ⟨tb, htb⟩ := getTab_isSome_of_mem
        (show tid ∈ tabIds (hideSel s) by rw [hideSel_ids]; exact hmem)
      have hdesc := select_desc s tid tb (fun t ht => (hL t ht).2) htb
      have hrun : s.runOp (.select tid) = afterSel s tid tb := by
        simp [Tabs.runOp, Tabs.applyOp, hdesc]
      rw [hrun]
      exact afterSel_invt s tid tb hL hnd
        (fun t ht hv => Or.inl ((hvis t ht).mp hv)) hfresh hwin hgood hmem
  | destroyAll =>
    obtain ⟨hInv, hgood⟩ := h
    obtain ⟨hL, hnd, hvis, hselm, hwinE, hfresh⟩ := hInv
    have hdesc := destroy_desc s hL
    cases hww : s.windowLive with
    | true =>
      simp only [hww] at hdesc
      have hrun : s.runOp .destroyAll = { s with tabList := [], selected := none, windowLive := false, windowDestroyCount := s.windowDestroyCount + 1 } := by
        simp [Tabs.runOp, Tabs.applyOp, hdesc, hww]
      rw [hrun]
      exact ⟨Inv_dead _ rfl rfl, hgood⟩
    | false =>
      simp only [hww] at hdesc
      have hrun : s.runOp .destroyAll = { s with tabList := [], selected := none, windowLive := false } := by
        simp [Tabs.runOp, Tabs.applyOp, hdesc, hww]
      rw [hrun]
      exact ⟨Inv_dead _ rfl rfl, hgood⟩

theorem run_invt (s : Tabs) (ops : List Op) (h : InvT s) : InvT (s.run ops) := by
  induction ops generalizing s with
  | nil => exact h
  | cons op ops ih =>
    show InvT (Tabs.run (Tabs.runOp s op) ops)
    exact ih _ (runOp_invt s op h)

theorem init_invt (w h : Int) : InvT (Tabs.init w h) := by
  refine ⟨⟨?_, ?_, ?_, ?_, ?_, ?_⟩, ?_⟩ <;> simp [Tabs.init, selWF]

/-! ### Theorems for the specification claims -/

/-- C1 as stated is false at the tab-created observation point: running
create twice from a fresh collection, the snapshot emitted with the second
tab-created notification shows two visible tabs, because create shows the
new tab before select hides the previously selected one. -/
theorem tabs_single_selection_counterexample :
    ¬ (∀ o ∈ (Tabs.run (Tabs.init 800 600) [Op.create, Op.create]).events,
        o.visibleIds.length ≤ 1) := by
  decide

/-- C1 (amended): for every create/select/remove/destroy command sequence,
after each command completes at most one tab of the collection is visible
and, whenever the sequence is non-empty, the current selection equals
exactly one listed tab id; the same holds at every tab-selected and
tab-destroyed observation point. At a tab-created observation point two
tabs can be visible (see the counterexample), the only deviation from the
claim as stated. -/
theorem tabs_single_selection (w h : Int) (ops : List Op) :
    (visIds (Tabs.run (Tabs.init w h) ops).tabList).length ≤ 1 ∧
    goodSel (Tabs.run (Tabs.init w h) ops).selected
      (tabIds (Tabs.run (Tabs.init w h) ops).tabList) ∧
    ∀ o ∈ (Tabs.run (Tabs.init w h) ops).events,
      o.kind = .tabSelected ∨ o.kind = .tabDestroyed →
        o.visibleIds.length ≤ 1 ∧ goodSel o.selectedId o.tabIds := by
  have h1 := run_invt (Tabs.init w h) ops (init_invt w h)
  have h2 := Inv_obsFacts h1.1
  exact ⟨h2.1, h2.2, fun o ho hk => (h1.2 o ho).1 hk⟩

/-- The last observation of the trace create; create: the tab-selected
snapshot with a single visible tab. -/
def c1Obs : Obs :=
  { kind := .tabSelected, payloadId := 2, payloadDestroyed := false,
    tabIds := [1, 2], visibleIds := [2], selectedId := some 2 }

/-- Witness for C1 (amended) on the trace create; create. -/
theorem tabs_single_selection_witness :
    (visIds (Tabs.run (Tabs.init 800 600)
      [Op.create, Op.create]).tabList).length ≤ 1 ∧
    c1Obs.visibleIds.length ≤ 1 ∧ goodSel c1Obs.selectedId c1Obs.tabIds := by
  have h := tabs_single_selection 800 600 [Op.create, Op.create]
  exact ⟨h.1, h.2.2 c1Obs (by decide) (by decide)⟩

/-- The tie-break rule in the words of the spec: prefer the tab that slid
into the removed slot (the one now at the removed index); when none exists
the removed tab was last, so take the new last tab. -/
def specNextSelected (l : List Tab) (i : Nat) : Option Nat :=
  match idxGet l i with
  | some t => some t.id
  | none => (idxGet l (l.length - 1)).map Tab.id

theorem jsNextTab_eq_spec (l : List Tab) (i : Nat) (hle : i ≤ l.length)
    (hne : l ≠ []) :
    (jsNextTab l i).map Tab.id = specNextSelected l i := by
  cases hg : idxGet l i with
  | some t => simp [jsNextTab, specNextSelected, hg]
  | none =>
    have h1 : l.length ≤ i := (idxGet_none_iff _ _).mp hg
    have heq : l.length = i := Nat.le_antisymm h1 hle
    have h0 : i ≠ 0 := by
      intro h0
      rw [h0] at heq
      refine hne ?_
      cases l with
      | nil => rfl
      | cons t ts => simp at heq
    simp only [jsNextTab, specNextSelected, hg]
    rw [if_neg h0, heq]

/-- C2: when the selected tab is removed from a collection that keeps at
least one tab, the newly selected tab is exactly the one the spec
describes: the tab that slid into the removed slot, or, when the removed
tab was last, the new last tab. In particular for [A,B,C]: removing
selected B selects C, and removing selected C selects B. -/
theorem tabs_remove_tiebreak (s : Tabs) (tid i : Nat)
    (hInv : Inv s)
    (hidx : findTabIndex s.tabList tid = some i)
    (hsel : s.selected = some tid)
    (hlen : 2 ≤ s.tabList.length) :
    ∃ s2, s.remove tid = .ok s2 ∧
      s2.selected = specNextSelected (dropIdx s.tabList i) i := by
  obtain ⟨hL, hnd, hvis, hselm, hwinE, hfresh⟩ := hInv
  obtain ⟨t0, hget0, hid0, hlt⟩ := findTabIndex_spec hidx
  have hselC : s.selected = some t0.id := by
    rw [hid0]
    exact hsel
  have hwin : s.windowLive = true := by
    cases hww : s.windowLive
    · rw [hwinE hww] at hlt
      simp at hlt
    · rfl
  have hdes : t0.destroy = .ok (destroyP t0) :=
    Tab.destroy_live t0 (hL t0 (idxGet_mem hget0)).1
      (hL t0 (idxGet_mem hget0)).2
  have hile : i ≤ (dropIdx s.tabList i).length := by
    rw [dropIdx_length hlt]
    omega
  have hl1ne : dropIdx s.tabList i ≠ [] := by
    intro h0
    have hdl := dropIdx_length hlt
    rw [h0] at hdl
    simp at hdl
    omega
  have hndl1 : (tabIds (dropIdx s.tabList i)).Nodup := nodup_dropIdx _ _ hnd
  have hLl1 : ∀ t ∈ dropIdx s.tabList i, TabLive t :=
    fun t ht => hL t (dropIdx_subset _ _ t ht)
  cases hnt : jsNextTab (dropIdx s.tabList i) i with
  | none => exact absurd (jsNextTab_eq_none hile hnt) hl1ne
  | some nt =>
    have hntmem : nt ∈ dropIdx s.tabList i := jsNextTab_mem hnt
    have hntid : nt.id ∈ tabIds (dropIdx s.tabList i) :=
      List.mem_map_of_mem Tab.id hntmem
    have htb : getTab (hideSel { s with tabList := dropIdx s.tabList i, selected := none }) nt.id = some nt := by
      show getTab (dropIdx s.tabList i) nt.id = some nt
      exact getTab_of_mem_nodup hntmem hndl1
    have hseld := select_desc { s with tabList := dropIdx s.tabList i, selected := none } nt.id nt (fun t ht => (hLl1 t ht).2) htb
    have hlen0 : (setTab (hideSel { s with tabList := dropIdx s.tabList i, selected := none }) nt.id (showP s.winW s.winH)).length ≠ 0 := by
      intro h0
      rw [List.length_eq_zero] at h0
      have hm : nt.id ∈ tabIds (setTab (hideSel { s with tabList := dropIdx s.tabList i, selected := none }) nt.id (showP s.winW s.winH)) := by
        rw [setTab_ids (hideSel { s with tabList := dropIdx s.tabList i, selected := none }) nt.id (showP s.winW s.winH) (fun t => rfl), hideSel_ids]
        exact hntid
      rw [h0] at hm
      simp at hm
    have hrem : s.remove tid = .ok { afterSel { s with tabList := dropIdx s.tabList i, selected := none } nt.id nt with events := (afterSel { s with tabList := dropIdx s.tabList i, selected := none } nt.id nt).events ++ [snapshot .tabDestroyed (destroyP t0) (afterSel { s with tabList := dropIdx s.tabList i, selected := none } nt.id nt)] } := by
      simp [Tabs.remove, hidx, hget0, hdes, hselC, hnt, hseld, hlen0]
    refine ⟨_, hrem, ?_⟩
    show some nt.id = specNextSelected (dropIdx s.tabList i) i
    rw [← jsNextTab_eq_spec (dropIdx s.tabList i) i hile hl1ne, hnt]
    rfl

/-- A three-tab collection [A,B,C] with ids 1,2,3 and B (id 2) selected. -/
def c2State : Tabs :=
  { tabList := [{ id := 1, destroyed := false, visible := false, resizeSubs := 0, bounds := none, borderRadius := none, attached := true, hasWindow := true }, { id := 2, destroyed := false, visible := true, resizeSubs := 1, bounds := none, borderRadius := none, attached := true, hasWindow := true }, { id := 3, destroyed := false, visible := false, resizeSubs := 0, bounds := none, borderRadius := none, attached := true, hasWindow := true }], selected := some 2, windowLive := true, windowDestroyCount := 0, winW := 800, winH := 600, nextId := 4, events := [] }

/-- Witness for C2: in [A,B,C] with B selected, remove of B selects C. -/
theorem tabs_remove_tiebreak_witness :
    Inv c2State ∧ (c2State.remove 2).map Tabs.selected = .ok (some 3) := by
  have hInv : Inv c2State := by decide
  refine ⟨hInv, ?_⟩
  obtain ⟨s2, h1, h2⟩ := tabs_remove_tiebreak c2State 2 1 hInv (by decide)
    (by decide) (by decide)
  rw [h1]
  show Except.ok s2.selected = Except.ok (some 3)
  rw [h2]
  simp only [Except.ok.injEq]
  decide

/-- C3 as stated is false: on a Tab whose destroy() has completed, a second
destroy() is a silent no-op, but show() and hide() are not: both throw a
TypeError, because destroy() cleared the window reference the code
dereferences. -/
theorem tab_destroyed_noop_counterexample :
    (Tab.mkTab 5).destroy = .ok (destroyP (Tab.mkTab 5)) ∧
    (destroyP (Tab.mkTab 5)).show 800 600 = .error .typeError ∧
    (destroyP (Tab.mkTab 5)).hide = .error .typeError :=
  ⟨rfl, rfl, rfl⟩

/-- C3 (amended): a Tab on which destroy() has completed never re-enters
the active state: its destroyed flag stays set, destroy() again is a no-op
returning without error and leaving the tab unchanged, while show() and
hide() throw a TypeError (member access on the cleared window reference)
without changing any observable state. -/
theorem tab_lifecycle_monotone (t0 t : Tab) (w h : Int)
    (h0 : t0.destroyed = false) (hd : t0.destroy = .ok t) :
    t.destroyed = true ∧ t.destroy = .ok t ∧
    t.show w h = .error .typeError ∧ t.hide = .error .typeError := by
  have hw : t0.hasWindow = true := by
    cases hww : t0.hasWindow
    · simp [Tab.destroy, h0, Tab.hide, Tab.stopResizeListener, hww] at hd
    · rfl
  rw [Tab.destroy_live t0 h0 hw] at hd
  have ht : t = destroyP t0 := (Except.ok.inj hd).symm
  subst ht
  exact ⟨rfl, Tab.destroy_again _ rfl, Tab.show_dead w h _ rfl,
    Tab.hide_dead _ rfl⟩

/-- Witness for C3 (amended) on a concrete destroyed tab. -/
theorem tab_lifecycle_monotone_witness :
    (Tab.mkTab 5).destroyed = false ∧
    (destroyP (Tab.mkTab 5)).destroyed = true ∧
    (destroyP (Tab.mkTab 5)).destroy = .ok (destroyP (Tab.mkTab 5)) ∧
    (destroyP (Tab.mkTab 5)).show 800 600 = .error .typeError ∧
    (destroyP (Tab.mkTab 5)).hide = .error .typeError := by
  have h := tab_lifecycle_monotone (Tab.mkTab 5) (destroyP (Tab.mkTab 5))
    800 600 rfl rfl
  exact ⟨rfl, h.1, h.2.1, h.2.2.1, h.2.2.2⟩

/-- The tab produced by calling show() twice in a row on a fresh tab in a
800 by 600 window: it holds two resize registrations. -/
def showTwiceTab : Tab :=
  { id := 7, destroyed := false, visible := true, resizeSubs := 2,
    bounds := some { x := 4, y := 66, width := 792, height := 530 },
    borderRadius := some 8, attached := true, hasWindow := true }

/-- C4 is violated by the code (code bug): window.on appends the bound
handler again on every show(), so calling show() twice in a row leaves two
live resize subscriptions, and a single window resize then runs the layout
recomputation twice instead of once. -/
theorem tab_show_twice_double_subscription :
    (match (Tab.mkTab 7).show 800 600 with
      | .ok t1 => t1.show 800 600
      | .error e => .error e) = .ok showTwiceTab ∧
    showTwiceTab.resizeSubs = 2 ∧
    showTwiceTab.onWindowResize 800 600 = .ok (showTwiceTab, 2) :=
  ⟨rfl, rfl, rfl⟩

/-- C5: for every tab holding its window reference, show() in a window of
content size w by h sets the surface bounds to x = padding,
y = chromeHeight + padding, width = w - 2 * padding,
height = h - chromeHeight - 2 * padding (chromeHeight = toolbarHeight = 62,
padding = 4) and makes the surface visible; at 800 by 600 this is
x=4, y=66, width=792, height=530. -/
theorem tab_layout_formula (t : Tab) (w h : Int) (hw : t.hasWindow = true) :
    t.show w h = .ok (showP w h t) ∧
    (showP w h t).bounds = some { x := 4, y := toolbarHeight + 4, width := w - 2 * 4, height := h - toolbarHeight - 2 * 4 } ∧
    (showP w h t).visible = true := by
  refine ⟨Tab.show_live w h t hw, ?_, rfl⟩
  show some (layoutRect w h) = _
  simp only [layoutRect, Option.some.injEq, Rect.mk.injEq]
  refine ⟨trivial, trivial, by ring, by ring⟩

/-- Witness for C5 at a 800 by 600 window. -/
theorem tab_layout_formula_witness :
    (Tab.mkTab 1).hasWindow = true ∧
    (Tab.mkTab 1).show 800 600 = .ok (showP 800 600 (Tab.mkTab 1)) ∧
    (showP 800 600 (Tab.mkTab 1)).bounds
      = some { x := 4, y := 66, width := 792, height := 530 } := by
  obtain ⟨h1, h2, h3⟩ := tab_layout_formula (Tab.mkTab 1) 800 600 rfl
  refine ⟨rfl, h1, ?_⟩
  rw [h2]
  decide

/-- C6: removing the only tab of a one-tab collection cascades to full
collection teardown: the sequence becomes empty, the selection is cleared,
the owned window is destroyed with its release hook firing exactly once,
and the collection is left in its terminal destroyed state. -/
theorem tabs_cascade_teardown (s : Tabs) (t : Tab)
    (hInv : Inv s) (hone : s.tabList = [t]) :
    ∃ s2, s.remove t.id = .ok s2 ∧ s2.tabList = [] ∧ s2.selected = none ∧
      s2.windowLive = false ∧
      s2.windowDestroyCount = s.windowDestroyCount + 1 := by
  obtain ⟨hL, hnd, hvis, hselm, hwinE, hfresh⟩ := hInv
  have htmem : t ∈ s.tabList := by
    rw [hone]
    exact List.mem_cons_self _ _
  have hlive := hL t htmem
  have hwin : s.windowLive = true := by
    cases hww : s.windowLive
    · rw [hwinE hww] at hone
      simp at hone
    · rfl
  have hselC : s.selected = some t.id := by
    cases hsel : s.selected with
    | none =>
      rw [hsel] at hselm
      have hnil : s.tabList = [] := hselm
      rw [hnil] at hone
      simp at hone
    | some sid =>
      rw [hsel] at hselm
      have hmem2 : sid ∈ tabIds s.tabList := hselm
      rw [hone] at hmem2
      simp only [tabIds_cons, tabIds_nil, List.mem_singleton] at hmem2
      rw [hmem2]
  have hdes : t.destroy = .ok (destroyP t) := Tab.destroy_live t hlive.1 hlive.2
  have hrem : s.remove t.id = .ok { s with tabList := [], selected := none, windowLive := false, windowDestroyCount := s.windowDestroyCount + 1, events := s.events ++ [snapshot .tabDestroyed (destroyP t) { s with tabList := [], selected := none }] } := by
    simp [Tabs.remove, hone, findTabIndex, idxGet, dropIdx, hdes, hselC, jsNextTab, Tabs.destroy, destroyAllTabs, hwin]
  exact ⟨_, hrem, rfl, rfl, rfl, rfl⟩

/-- A one-tab collection whose single tab (id 1) is selected and shown. -/
def c6Tab : Tab :=
  { id := 1, destroyed := false, visible := true, resizeSubs := 1, bounds := none, borderRadius := none, attached := true, hasWindow := true }

def c6State : Tabs :=
  { tabList := [c6Tab], selected := some 1, windowLive := true, windowDestroyCount := 0, winW := 800, winH := 600, nextId := 2, events := [] }

/-- Witness for C6 on a one-tab collection. -/
theorem tabs_cascade_teardown_witness :
    Inv c6State ∧
    (c6State.remove 1).map
      (fun s2 => (s2.tabList, s2.selected, s2.windowLive, s2.windowDestroyCount))
      = .ok ([], none, false, 1) := by
  have hInv : Inv c6State := by decide
  refine ⟨hInv, ?_⟩
  obtain ⟨s2, h1, h2, h3, h4, h5⟩ := tabs_cascade_teardown c6State c6Tab hInv rfl
  have h1a : c6State.remove 1 = .ok s2 := h1
  rw [h1a]
  show Except.ok (s2.tabList, s2.selected, s2.windowLive, s2.windowDestroyCount)
    = Except.ok (([] : List Tab), (none : Option Nat), false, 1)
  rw [h2, h3, h4, h5]
  rfl

/-- C7: Tabs.remove on an id not present in the collection throws
NotFoundError and the command leaves the collection completely unchanged. -/
theorem tabs_remove_notfound (s : Tabs) (tid : Nat)
    (hmem : tid ∉ tabIds s.tabList) :
    s.remove tid = .error (.notFound tid) ∧
    Tabs.runOp s (.remove tid) = s := by
  have hidx : findTabIndex s.tabList tid = none :=
    (findTabIndex_none_iff _ _).mpr hmem
  have h1 : s.remove tid = .error (.notFound tid) := by
    simp [Tabs.remove, hidx]
  exact ⟨h1, by simp [Tabs.runOp, Tabs.applyOp, h1]⟩

/-- Witness for C7 on a one-tab collection and the stale id 999. -/
theorem tabs_remove_notfound_witness :
    ((999 : Nat) ∉ tabIds (Tabs.run (Tabs.init 800 600) [Op.create]).tabList) ∧
    (Tabs.run (Tabs.init 800 600) [Op.create]).remove 999
      = .error (.notFound 999) ∧
    Tabs.runOp (Tabs.run (Tabs.init 800 600) [Op.create]) (.remove 999)
      = Tabs.run (Tabs.init 800 600) [Op.create] := by
  have hm : (999 : Nat)
      ∉ tabIds (Tabs.run (Tabs.init 800 600) [Op.create]).tabList := by
    decide
  have h := tabs_remove_notfound _ 999 hm
  exact ⟨hm, h.1, h.2⟩

/-- C8: Tabs.select on an id that does not resolve to a tab in the
collection is a silent no-op: no error, no notification, the prior
selection and every visibility flag stay exactly as they were. -/
theorem tabs_select_unknown_noop (s : Tabs) (tid : Nat)
    (hmem : tid ∉ tabIds s.tabList) :
    s.select tid = .ok s := by
  have hg : getTab s.tabList tid = none := (getTab_eq_none_iff _ _).mpr hmem
  simp [Tabs.select, Tabs.get, hg]

/-- Witness for C8 on a one-tab collection and the unknown id 999. -/
theorem tabs_select_unknown_noop_witness :
    ((999 : Nat) ∉ tabIds (Tabs.run (Tabs.init 800 600) [Op.create]).tabList) ∧
    (Tabs.run (Tabs.init 800 600) [Op.create]).select 999
      = .ok (Tabs.run (Tabs.init 800 600) [Op.create]) := by
  have hm : (999 : Nat)
      ∉ tabIds (Tabs.run (Tabs.init 800 600) [Op.create]).tabList := by
    decide
  exact ⟨hm, tabs_select_unknown_noop _ 999 hm⟩

/-- C9: in every reachable trace, at the moment a tab-destroyed
notification is observed the state mutation is fully applied: the payload
tab is already destroyed and its id is absent from the snapshot of the
collection sequence. -/
theorem tabs_destroyed_after_mutation (w h : Int) (ops : List Op) :
    ∀ o ∈ (Tabs.run (Tabs.init w h) ops).events, o.kind = .tabDestroyed →
      o.payloadDestroyed = true ∧ o.payloadId ∉ o.tabIds := by
  intro o ho hk
  exact ((run_invt (Tabs.init w h) ops (init_invt w h)).2 o ho).2 hk

/-- The tab-destroyed observation of the trace create; remove 1. -/
def c9Obs : Obs :=
  { kind := .tabDestroyed, payloadId := 1, payloadDestroyed := true,
    tabIds := [], visibleIds := [], selectedId := none }

/-- Witness for C9 on the trace create; remove 1. -/
theorem tabs_destroyed_after_mutation_witness :
    c9Obs.payloadDestroyed = true ∧ c9Obs.payloadId ∉ c9Obs.tabIds :=
  tabs_destroyed_after_mutation 800 600 [Op.create, Op.remove 1] c9Obs
    (by decide) rfl

/-- C10: create() on a live collection returns with the newly created tab
appended at the end of the sequence and selected, also when a different tab
was selected before the call. -/
theorem tabs_create_selects_new (s : Tabs) (hInv : Inv s)
    (hwin : s.windowLive = true) :
    ∃ s2 tb, s.create = .ok (s2, tb) ∧ tb.id = s.nextId ∧
      s2.selected = some s.nextId ∧
      tabIds s2.tabList = tabIds s.tabList ++ [s.nextId] := by
  obtain ⟨hL, hnd, hvis, hselm, hwinE, hfresh⟩ := hInv
  have hfr : s.nextId ∉ tabIds s.tabList := fun hm =>
    absurd (hfresh _ hm) (lt_irrefl _)
  obtain ⟨tb, htb, hc⟩ := create_desc s hwin (fun t ht => (hL t ht).2) hfr
  refine ⟨afterSel (midCreate s) s.nextId tb, showP s.winW s.winH tb, hc,
    ?_, rfl, ?_⟩
  · show (showP s.winW s.winH tb).id = s.nextId
    rw [showP_id]
    exact (getTab_mem htb).2
  · rw [afterSel_ids, midCreate_tabList, tabIds_append]
    rfl

/-- Witness for C10 on a collection that already has a selected tab. -/
theorem tabs_create_selects_new_witness :
    Inv (Tabs.run (Tabs.init 800 600) [Op.create]) ∧
    ((Tabs.run (Tabs.init 800 600) [Op.create]).create).map
      (fun p => (p.2.id, p.1.selected, tabIds p.1.tabList))
      = .ok (2, some 2, [1, 2]) := by
  have hInv : Inv (Tabs.run (Tabs.init 800 600) [Op.create]) := by decide
  refine ⟨hInv, ?_⟩
  obtain ⟨s2, tb, h1, h2, h3, h4⟩ :=
    tabs_create_selects_new _ hInv (by decide)
  rw [h1]
  show Except.ok (tb.id, s2.selected, tabIds s2.tabList)
    = Except.ok ((2 : Nat), some 2, [1, 2])
  rw [h2, h3, h4]
  simp only [Except.ok.injEq]
  decide

end Shell
